import Mathlib

/-!
Verification of the QView3D serial protocol engine.

JavaScript strings are embedded as lists of characters (`JStr`). Each
definition translates one place in the repository's source; the doc comment
of a definition names the file and function it embeds.
-/

namespace QView

/-- Embedding of a JavaScript string: a list of characters. -/
abbrev JStr := List Char

/-- The fixed acknowledgement token `RESPONSE_COMPLETED = 'ok'` (serial.js). -/
def okLine : JStr := ['o', 'k']

/-- Prepending the fragment `p` onto the first element of a split result
(used to state how `split('\n')` behaves on concatenations). -/
def mergeHead (p : JStr) : List JStr → List JStr
  | [] => [p]
  | h :: t => (p ++ h) :: t

/-- Embedding of JavaScript `str.split('\n')`: splits a string at every
newline character.  Like the JavaScript method, the result is always
non-empty and the final element is the fragment after the last newline
(possibly empty). -/
def splitNl : JStr → List JStr
  | [] => [[]]
  | c :: rest =>
    if c = '\n' then [] :: splitNl rest
    else mergeHead [c] (splitNl rest)

/-- The complete (newline-terminated) lines of a buffer: every element of
`split('\n')` except the last.  This is the `outputLines.length - 1`
iteration bound used in every `#portListener` revision. -/
def frags (xs : JStr) : List JStr := (splitNl xs).dropLast

/-- The unterminated tail of a buffer: the last element of `split('\n')`.
This is the `incompleteLine` retained in `#dataBuffer` by `#portListener`. -/
def tailFrag (xs : JStr) : JStr := (splitNl xs).getLastD []

@[simp] theorem mergeHead_nil (p : JStr) : mergeHead p [] = [p] := rfl

@[simp] theorem mergeHead_cons (p h : JStr) (t : List JStr) :
    mergeHead p (h :: t) = (p ++ h) :: t := rfl

theorem mergeHead_mergeHead (p q : JStr) (l : List JStr) :
    mergeHead p (mergeHead q l) = mergeHead (p ++ q) l := by
  cases l <;> simp

theorem mergeHead_nil_left {l : List JStr} (h : l ≠ []) :
    mergeHead [] l = l := by
  cases l with
  | nil => exact absurd rfl h
  | cons a t => simp

theorem mergeHead_ne_nil (p : JStr) (l : List JStr) : mergeHead p l ≠ [] := by
  cases l <;> simp

@[simp] theorem splitNl_nil : splitNl [] = [[]] := rfl

@[simp] theorem splitNl_cons_nl (rest : JStr) :
    splitNl ('\n' :: rest) = [] :: splitNl rest := by
  simp [splitNl]

theorem splitNl_cons_ne {c : Char} (hc : c ≠ '\n') (rest : JStr) :
    splitNl (c :: rest) = mergeHead [c] (splitNl rest) := by
  simp [splitNl, hc]

theorem splitNl_ne_nil (xs : JStr) : splitNl xs ≠ [] := by
  match xs with
  | [] => simp
  | c :: rest =>
    by_cases hc : c = '\n'
    · subst hc; simp
    · rw [splitNl_cons_ne hc]; exact mergeHead_ne_nil _ _

/-- Splitting a concatenation: the complete lines of `a` come first, and the
unterminated tail of `a` is glued onto the first fragment of `b`. -/
theorem splitNl_append (a b : JStr) :
    splitNl (a ++ b) = frags a ++ mergeHead (tailFrag a) (splitNl b) := by
  induction a with
  | nil =>
    simp [frags, tailFrag, mergeHead_nil_left (splitNl_ne_nil b)]
  | cons c rest ih =>
    by_cases hc : c = '\n'
    · subst hc
      have hne := splitNl_ne_nil rest
      rw [List.cons_append, splitNl_cons_nl, ih]
      cases hr : splitNl rest with
      | nil => exact absurd hr hne
      | cons x l =>
        simp only [frags, tailFrag, splitNl_cons_nl, hr,
          List.dropLast_cons₂, List.getLastD_cons, List.cons_append]
    · rw [List.cons_append, splitNl_cons_ne hc, ih]
      cases hr : splitNl rest with
      | nil => exact absurd hr (splitNl_ne_nil rest)
      | cons x l =>
        cases l with
        | nil =>
          -- `rest` holds no complete line, so `c` joins the tail fragment
          simp only [frags, tailFrag, splitNl_cons_ne hc, hr,
            List.dropLast_single, List.getLastD_cons, mergeHead_nil,
            List.dropLast_nil, List.getLastD_nil, List.nil_append,
            mergeHead_mergeHead]
          simp
        | cons x2 l2 =>
          simp only [frags, tailFrag, splitNl_cons_ne hc, hr, mergeHead_cons,
            List.dropLast_cons₂, List.getLastD_cons, List.cons_append,
            List.singleton_append]

/-- Fragments produced by `split('\n')` never contain a newline. -/
theorem splitNl_no_nl : ∀ (xs : JStr), ∀ l ∈ splitNl xs, '\n' ∉ l := by
  intro xs
  induction xs with
  | nil =>
    intro l hl
    simp only [splitNl_nil, List.mem_singleton] at hl
    subst hl
    simp
  | cons c rest ih =>
    intro l hl
    by_cases hc : c = '\n'
    · subst hc
      rw [splitNl_cons_nl] at hl
      rcases List.mem_cons.mp hl with h1 | h1
      · subst h1; simp
      · exact ih l h1
    · rw [splitNl_cons_ne hc] at hl
      cases hr : splitNl rest with
      | nil => exact absurd hr (splitNl_ne_nil rest)
      | cons x t =>
        rw [hr] at hl
        simp only [mergeHead_cons, List.singleton_append, List.mem_cons] at hl
        rcases hl with hl | hl
        · subst hl
          intro hmem
          rcases List.mem_cons.mp hmem with h | h
          · exact hc h.symm
          · exact ih x (by rw [hr]; exact List.mem_cons_self x t) h
        · exact ih l (by rw [hr]; exact List.mem_cons_of_mem x hl)

/-- Splitting a string without newlines returns the single fragment itself. -/
theorem splitNl_of_no_nl {xs : JStr} (h : '\n' ∉ xs) : splitNl xs = [xs] := by
  induction xs with
  | nil => rfl
  | cons c rest ih =>
    have hc : c ≠ '\n' := fun hcn => h (hcn ▸ List.mem_cons_self c rest)
    have hr : '\n' ∉ rest := fun hm => h (List.mem_cons_of_mem c hm)
    rw [splitNl_cons_ne hc, ih hr]
    rfl

/-- The retained tail fragment never contains a newline. -/
theorem tailFrag_no_nl (xs : JStr) : '\n' ∉ tailFrag xs := by
  have hmem : tailFrag xs ∈ splitNl xs := by
    unfold tailFrag
    cases hs : splitNl xs with
    | nil => exact absurd hs (splitNl_ne_nil xs)
    | cons a t =>
      rw [List.getLastD_eq_getLast?, List.getLast?_eq_getLast (a :: t) (by simp)]
      simp [List.getLast_mem]
  exact splitNl_no_nl xs _ hmem

/-- Prepending a newline-free prefix only extends the first fragment. -/
theorem splitNl_noNl_append {p : JStr} (hp : '\n' ∉ p) (b : JStr) :
    splitNl (p ++ b) = mergeHead p (splitNl b) := by
  induction p with
  | nil => simp [mergeHead_nil_left (splitNl_ne_nil b)]
  | cons c t ih =>
    have hc : c ≠ '\n' := fun hcn => hp (hcn ▸ List.mem_cons_self c t)
    have ht : '\n' ∉ t := fun hm => hp (List.mem_cons_of_mem c hm)
    rw [List.cons_append, splitNl_cons_ne hc, ih ht, mergeHead_mergeHead]
    rfl

theorem getLastD_irrel {l : List JStr} (h : l ≠ []) (d d2 : JStr) :
    l.getLastD d = l.getLastD d2 := by
  cases l with
  | nil => exact absurd rfl h
  | cons a t => rw [List.getLastD_cons, List.getLastD_cons]

theorem getLastD_append_ne {l2 : List JStr} (l1 : List JStr) (h : l2 ≠ [])
    (d : JStr) : (l1 ++ l2).getLastD d = l2.getLastD d := by
  induction l1 generalizing d with
  | nil => rfl
  | cons a t ih =>
    rw [List.cons_append, List.getLastD_cons, ih a]
    exact getLastD_irrel h a d

theorem dropLast_append_ne {l2 : List JStr} (l1 : List JStr) (h : l2 ≠ []) :
    (l1 ++ l2).dropLast = l1 ++ l2.dropLast := by
  induction l1 with
  | nil => rfl
  | cons a t ih =>
    rw [List.cons_append]
    cases htl : t ++ l2 with
    | nil =>
      rcases List.append_eq_nil.mp htl with ⟨_, h2⟩
      exact absurd h2 h
    | cons x xs =>
      rw [List.dropLast_cons₂, ← htl, ih, List.cons_append]

/-!
### LineFramer (claim C5)

`Printer.#portListener` in `server-javascript/src/printer.js` (second
revision, lines 255-325) implements line framing: the chunk is appended to
`#dataBuffer`, the buffer is split on `'\n'`, all elements except the last
are the complete lines processed in this pass, and the last element is
stored back into `#dataBuffer`.
-/

/-- One framing pass: returns the complete lines processed by this call and
the new retained buffer. -/
def lineFramerFeed (buf chunk : JStr) : List JStr × JStr :=
  let outputLines := splitNl (buf ++ chunk)
  (outputLines.dropLast, outputLines.getLastD [])

/-- Feeding a sequence of chunks one call at a time, concatenating the
complete lines produced by each call. -/
def feedChunks (buf : JStr) : List JStr → List JStr × JStr
  | [] => ([], buf)
  | c :: cs =>
    let r := lineFramerFeed buf c
    let r2 := feedChunks r.2 cs
    (r.1 ++ r2.1, r2.2)

theorem lineFramerFeed_eq (buf chunk : JStr) :
    lineFramerFeed buf chunk = (frags (buf ++ chunk), tailFrag (buf ++ chunk)) := rfl

/-- Splitting decomposes around a newline-free old buffer:
the lines of `A ++ F` are the lines of `A` followed by the lines obtained
from feeding `F` after the tail of `A`. -/
theorem splitNl_decompose (A F : JStr) :
    splitNl (A ++ F) = frags A ++ splitNl (tailFrag A ++ F) := by
  rw [splitNl_append, splitNl_noNl_append (tailFrag_no_nl A)]

theorem frags_decompose (A F : JStr) :
    frags (A ++ F) = frags A ++ frags (tailFrag A ++ F) := by
  unfold frags
  rw [splitNl_decompose, dropLast_append_ne _ (splitNl_ne_nil _)]
  rfl

theorem tailFrag_decompose (A F : JStr) :
    tailFrag (A ++ F) = tailFrag (tailFrag A ++ F) := by
  unfold tailFrag
  rw [splitNl_decompose, getLastD_append_ne _ (splitNl_ne_nil _)]
  rfl

theorem feedChunks_eq_feed_flatten :
    ∀ (chunks : List JStr) (buf : JStr), '\n' ∉ buf →
      feedChunks buf chunks = lineFramerFeed buf chunks.flatten := by
  intro chunks
  induction chunks with
  | nil =>
    intro buf hb
    show ([], buf) = lineFramerFeed buf []
    rw [lineFramerFeed_eq, List.append_nil]
    unfold frags tailFrag
    rw [splitNl_of_no_nl hb]
    rfl
  | cons c cs ih =>
    intro buf hb
    show ((lineFramerFeed buf c).1 ++ (feedChunks (lineFramerFeed buf c).2 cs).1,
          (feedChunks (lineFramerFeed buf c).2 cs).2) = _
    rw [lineFramerFeed_eq]
    rw [ih (tailFrag (buf ++ c)) (tailFrag_no_nl (buf ++ c))]
    rw [lineFramerFeed_eq, lineFramerFeed_eq, List.flatten_cons,
      ← List.append_assoc]
    rw [frags_decompose (buf ++ c) cs.flatten,
      tailFrag_decompose (buf ++ c) cs.flatten]

/-!
### Printer states and jobs

`PrinterState` from `src/unnamed/part_003` (also `server-javascript/src/printer.js`):
NOT_CONNECTED, READY, PRINTING, CONNECTING, PAUSED, ERROR.
`Job` from `src/server-javascript/src/printer/job.js` (same shape as
`src/server-javascript/src/job.js`): an immutable command array
`#gcodeScript` and a mutable cursor `#gcodeScriptIndex`.
-/

inductive PrinterState
  | notConnected
  | ready
  | printing
  | connecting
  | paused
  | error
deriving DecidableEq, Repr

structure Job where
  name : String
  script : List JStr
  index : Nat
deriving DecidableEq, Repr

/-- The array read `this.#gcodeScript[this.#gcodeScriptIndex]` performed by
both `nextGcodeCommand` and `isComplete`: `none` embeds the JavaScript
`undefined` produced by an out-of-bounds index. -/
def Job.peek (j : Job) : Option JStr := j.script.get? j.index

/-- Embedding of `Job.isComplete` (printer/job.js, lines 38-40): the script
entry at the cursor is `undefined`. -/
def Job.isComplete (j : Job) : Bool := j.peek.isNone

/-- The cursor increment `this.#gcodeScriptIndex++`. -/
def Job.advance (j : Job) : Job := { j with index := j.index + 1 }

/-- Embedding of `Job.nextGcodeCommand` (printer/job.js, lines 27-36): reads
the entry at the cursor; if it is `undefined` an error is thrown, otherwise
the cursor advances and the command text is returned. -/
def Job.nextGcodeCommand (j : Job) : Except String (JStr × Job) :=
  match j.peek with
  | none =>
    Except.error ("The job \"" ++ j.name ++ "\" has no more G-code commands to send")
  | some cmd => Except.ok (cmd, j.advance)

/-- Embedding of `Job.restart` (printer/job.js, lines 42-44). -/
def Job.restart (j : Job) : Job := { j with index := 0 }

/-- Claim C8: on a job whose cursor has reached the end of the command
array, nextGcodeCommand fails with the no-more-commands error and never
returns a value; and for a job whose cursor is within bounds
(cursor less than or equal to the script length, as holds for every job
constructed at cursor 0 and advanced only on successful reads),
isComplete holds exactly when the cursor equals the script length. -/
theorem job_exhaustion_and_isComplete (j : Job) :
    (j.isComplete = true →
      j.nextGcodeCommand =
        Except.error
          ("The job \"" ++ j.name ++ "\" has no more G-code commands to send")) ∧
    (j.index ≤ j.script.length →
      (j.isComplete = true ↔ j.index = j.script.length)) := by
  constructor
  · intro hc
    unfold Job.nextGcodeCommand
    unfold Job.isComplete at hc
    cases hp : j.peek with
    | none => rfl
    | some c => rw [hp] at hc; simp [Option.isNone] at hc
  · intro hle
    unfold Job.isComplete Job.peek
    rw [Option.isNone_iff_eq_none, List.get?_eq_none]
    omega

theorem job_exhaustion_witness :
    (Job.mk "demo" [['G', '2', '8', '\n']] 1).isComplete = true ∧
    (Job.mk "demo" [['G', '2', '8', '\n']] 1).nextGcodeCommand =
      Except.error "The job \"demo\" has no more G-code commands to send" ∧
    ((Job.mk "demo" [['G', '2', '8', '\n']] 1).isComplete = true ↔
      (Job.mk "demo" [['G', '2', '8', '\n']] 1).index =
        (Job.mk "demo" [['G', '2', '8', '\n']] 1).script.length) := by
  refine ⟨by decide, ?_, ?_⟩
  · exact (job_exhaustion_and_isComplete (Job.mk "demo" [['G', '2', '8', '\n']] 1)).1
      (by decide)
  · exact (job_exhaustion_and_isComplete (Job.mk "demo" [['G', '2', '8', '\n']] 1)).2
      (by decide)

/-!
### The part_003 Printer dispatch pass (claims C3 and C4)

`Printer.#portListener` in `src/unnamed/part_003` (lines 72-167): the chunk
is appended to `#dataBuffer` first; when the printer is PAUSED the batch is
not processed and the (appended) buffer is retained unchanged; otherwise the
complete lines are scanned, and on each line equal to the two-character
acknowledgement token the next job command is dispatched at most once per
batch (the `commandSent` flag), or the job-complete transition
PRINTING to READY is taken.  The claims presuppose an active job, so
`#currentJob` is modelled as a present `Job`.
-/

/-- Accumulator for one scan of the complete lines of a batch. -/
structure P3Acc where
  state : PrinterState
  job : Job
  commandSent : Bool
  writes : List JStr
deriving DecidableEq, Repr

/-- One iteration of the line loop (part_003, lines 104-145).  The source
guard `currentLine.startsWith('ok') && currentLine.length === 2` holds
exactly when the line equals the token.  Inside: when PRINTING, a
non-complete job dispatches `nextGcodeCommand` via `#sendGcodeCommand`
unless `commandSent` is already true; a complete job transitions to READY
(the remaining branch only logs). -/
def p3HandleLine (acc : P3Acc) (line : JStr) : P3Acc :=
  if line = okLine then
    if acc.state = PrinterState.printing then
      match acc.job.peek with
      | some cmd =>
        if acc.commandSent = false then
          { acc with
            job := acc.job.advance
            commandSent := true
            writes := acc.writes ++ [cmd] }
        else acc
      | none => { acc with state := PrinterState.ready }
    else acc
  else acc

/-- The `for (let i = 0; i < outputLines.length - 1; i++)` loop of
part_003. -/
def p3ProcessLines (acc : P3Acc) : List JStr → P3Acc
  | [] => acc
  | l :: rest => p3ProcessLines (p3HandleLine acc l) rest

/-- The mutable fields of a part_003 Printer touched by the listener. -/
structure P3State where
  state : PrinterState
  dataBuffer : JStr
  job : Job
deriving DecidableEq, Repr

/-- Embedding of `Printer.#portListener` (part_003, lines 72-167).  Returns
the updated printer state together with the list of commands written to the
serial port during the pass. -/
def p3PortListener (st : P3State) (chunk : JStr) : P3State × List JStr :=
  let buf := st.dataBuffer ++ chunk
  if st.state = PrinterState.paused then
    ({ st with dataBuffer := buf }, [])
  else
    let outputLines := splitNl buf
    let acc := p3ProcessLines (P3Acc.mk st.state st.job false []) outputLines.dropLast
    (P3State.mk acc.state (outputLines.getLastD []) acc.job, acc.writes)

/-- The fixed resume command `SERIAL_PRINT_COMMAND` of part_003 (line 31). -/
def serialPrintCmd : JStr := "M118 E1 Hello, world!\n".toList

/-- Embedding of `Printer.continuePrint` (part_003, lines 293-307): only a
PAUSED printer resumes; the state becomes PRINTING and exactly one command,
`SERIAL_PRINT_COMMAND`, is written. -/
def continuePrint (st : P3State) : Except String (P3State × List JStr) :=
  if st.state = PrinterState.paused then
    Except.ok ({ st with state := PrinterState.printing }, [serialPrintCmd])
  else if st.state = PrinterState.printing then
    Except.error "already printing so continuing it makes no sense"
  else
    Except.error "not paused. Therefore, it cannot be continued"

/-- Claim C3 as stated is false: while PAUSED, an incoming batch is appended
to the input accumulator before the pause check, so the accumulator is not
left untouched.  Concrete input: a paused printer with empty buffer
receiving the acknowledgement line. -/
theorem pause_buffer_not_untouched :
    (p3PortListener
        (P3State.mk PrinterState.paused [] (Job.mk "j" [['G', '1', '\n']] 0))
        ['o', 'k', '\n']).1.dataBuffer ≠
      (P3State.mk PrinterState.paused [] (Job.mk "j" [['G', '1', '\n']] 0)).dataBuffer := by
  decide

/-- Claim C3, amended: while PAUSED a batch is appended to the input
accumulator but not processed: no command is written, the job cursor does
not advance, the state stays PAUSED, and the accumulator becomes the old
buffer plus the batch; a subsequent continuePrint succeeds and writes
exactly the one resume command. -/
theorem pause_suppression (st : P3State) (chunk : JStr)
    (h : st.state = PrinterState.paused) :
    (p3PortListener st chunk).2 = [] ∧
    (p3PortListener st chunk).1.job = st.job ∧
    (p3PortListener st chunk).1.state = PrinterState.paused ∧
    (p3PortListener st chunk).1.dataBuffer = st.dataBuffer ++ chunk ∧
    continuePrint (p3PortListener st chunk).1 =
      Except.ok ({ (p3PortListener st chunk).1 with state := PrinterState.printing },
        [serialPrintCmd]) := by
  simp [p3PortListener, continuePrint, h]

theorem pause_suppression_witness :
    (p3PortListener
        (P3State.mk PrinterState.paused ['o', 'k', '\n']
          (Job.mk "j" [['G', '1', '\n']] 0)) ['o', 'k', '\n']).2 = [] ∧
    (p3PortListener
        (P3State.mk PrinterState.paused ['o', 'k', '\n']
          (Job.mk "j" [['G', '1', '\n']] 0)) ['o', 'k', '\n']).1.job =
      Job.mk "j" [['G', '1', '\n']] 0 := by
  have h := pause_suppression
    (P3State.mk PrinterState.paused ['o', 'k', '\n'] (Job.mk "j" [['G', '1', '\n']] 0))
    ['o', 'k', '\n'] rfl
  exact ⟨h.1, h.2.1⟩

/-- Potential of an accumulator: writes already made plus the one write
still permitted when `commandSent` is false. -/
def p3Potential (acc : P3Acc) : Nat :=
  acc.writes.length + (if acc.commandSent then 0 else 1)

theorem p3HandleLine_potential (acc : P3Acc) (l : JStr) :
    p3Potential (p3HandleLine acc l) ≤ p3Potential acc := by
  unfold p3HandleLine
  by_cases h1 : l = okLine
  · simp only [h1, if_pos rfl]
    by_cases h2 : acc.state = PrinterState.printing
    · simp only [h2, if_pos rfl]
      cases hp : acc.job.peek with
      | some cmd =>
        by_cases h3 : acc.commandSent = false
        · simp [h3, p3Potential]
        · simp [h3, p3Potential]
      | none => simp [p3Potential]
    · simp [h2]
  · simp [h1]

theorem p3ProcessLines_potential :
    ∀ (lines : List JStr) (acc : P3Acc),
      p3Potential (p3ProcessLines acc lines) ≤ p3Potential acc := by
  intro lines
  induction lines with
  | nil => intro acc; exact Nat.le_refl _
  | cons l rest ih =>
    intro acc
    exact Nat.le_trans (ih (p3HandleLine acc l)) (p3HandleLine_potential acc l)

theorem p3HandleLine_of_not_printing {acc : P3Acc} (l : JStr)
    (h : acc.state ≠ PrinterState.printing) : p3HandleLine acc l = acc := by
  unfold p3HandleLine
  by_cases h1 : l = okLine
  · simp [h1, h]
  · simp [h1]

theorem p3ProcessLines_of_not_printing :
    ∀ (lines : List JStr) (acc : P3Acc), acc.state ≠ PrinterState.printing →
      p3ProcessLines acc lines = acc := by
  intro lines
  induction lines with
  | nil => intro acc _; rfl
  | cons l rest ih =>
    intro acc h
    show p3ProcessLines (p3HandleLine acc l) rest = acc
    rw [p3HandleLine_of_not_printing l h]
    exact ih acc h

/-- Scanning a batch that contains an acknowledgement line, starting from a
PRINTING accumulator whose job is complete, ends READY without writing. -/
theorem p3ProcessLines_complete_job :
    ∀ (lines : List JStr) (acc : P3Acc), acc.state = PrinterState.printing →
      acc.job.isComplete = true → okLine ∈ lines →
      (p3ProcessLines acc lines).state = PrinterState.ready ∧
      (p3ProcessLines acc lines).writes = acc.writes := by
  intro lines
  induction lines with
  | nil => intro acc _ _ hmem; exact absurd hmem (List.not_mem_nil _)
  | cons l rest ih =>
    intro acc hst hcomp hmem
    show (p3ProcessLines (p3HandleLine acc l) rest).state = PrinterState.ready ∧
      (p3ProcessLines (p3HandleLine acc l) rest).writes = acc.writes
    by_cases h1 : l = okLine
    · have hpn : acc.job.peek = none := by
        unfold Job.isComplete at hcomp
        exact Option.isNone_iff_eq_none.mp hcomp
      have hstep : p3HandleLine acc l = { acc with state := PrinterState.ready } := by
        unfold p3HandleLine
        simp [h1, hst, hpn]
      rw [hstep,
        p3ProcessLines_of_not_printing rest { acc with state := PrinterState.ready }
          (by simp)]
      exact ⟨rfl, rfl⟩
    · have hstep : p3HandleLine acc l = acc := by
        unfold p3HandleLine; simp [h1]
      rw [hstep]
      have hmem2 : okLine ∈ rest := by
        rcases List.mem_cons.mp hmem with h | h
        · exact absurd h.symm h1
        · exact h
      exact ih acc hst hcomp hmem2

/-- Claim C4: one dispatch pass of the part_003 listener writes at most one
job command, whatever the batch holds; and when a PRINTING printer whose
job is already complete sees an acknowledgement among the complete lines of
the batch, the pass transitions it to READY and writes nothing. -/
theorem dispatch_at_most_once (st : P3State) (chunk : JStr) :
    (p3PortListener st chunk).2.length ≤ 1 ∧
    (st.state = PrinterState.printing → st.job.isComplete = true →
      okLine ∈ frags (st.dataBuffer ++ chunk) →
      (p3PortListener st chunk).1.state = PrinterState.ready ∧
      (p3PortListener st chunk).2 = []) := by
  constructor
  · unfold p3PortListener
    by_cases hp : st.state = PrinterState.paused
    · simp [hp]
    · simp only [hp, if_neg, if_false]
      have h := p3ProcessLines_potential
        (splitNl (st.dataBuffer ++ chunk)).dropLast (P3Acc.mk st.state st.job false [])
      unfold p3Potential at h
      simp only [List.length_nil, if_neg Bool.false_ne_true, Nat.zero_add] at h
      calc (p3ProcessLines (P3Acc.mk st.state st.job false [])
              (splitNl (st.dataBuffer ++ chunk)).dropLast).writes.length
        ≤ _ := Nat.le_add_right _ _
        _ ≤ 1 := h
  · intro hst hcomp hmem
    have hnp : st.state ≠ PrinterState.paused := by rw [hst]; intro h; cases h
    have h := p3ProcessLines_complete_job
      (splitNl (st.dataBuffer ++ chunk)).dropLast (P3Acc.mk st.state st.job false [])
      hst hcomp hmem
    unfold p3PortListener
    simp only [hnp, if_neg, if_false]
    exact ⟨h.1, h.2⟩

theorem dispatch_at_most_once_witness :
    (p3PortListener
        (P3State.mk PrinterState.printing [] (Job.mk "j" [['G', '1', '\n']] 1))
        ['o', 'k', '\n', 'o', 'k', '\n']).2.length ≤ 1 ∧
    (p3PortListener
        (P3State.mk PrinterState.printing [] (Job.mk "j" [['G', '1', '\n']] 1))
        ['o', 'k', '\n', 'o', 'k', '\n']).1.state = PrinterState.ready ∧
    (p3PortListener
        (P3State.mk PrinterState.printing [] (Job.mk "j" [['G', '1', '\n']] 1))
        ['o', 'k', '\n', 'o', 'k', '\n']).2 = [] := by
  have h := dispatch_at_most_once
    (P3State.mk PrinterState.printing [] (Job.mk "j" [['G', '1', '\n']] 1))
    ['o', 'k', '\n', 'o', 'k', '\n']
  refine ⟨h.1, ?_⟩
  exact h.2 rfl (by decide) (by decide)

/-!
### The part_001 serial engine (claims C1, C2, C6, C7, C10)

`src/unnamed/part_001` (serial.js): SentGCodeCommand and Extractor objects
with state fields, the `sendGCodeCommand` validation and enqueue path, and
`createSerialCommunicationLoop`, whose listener accumulates output, detects
a completed response, evaluates extractors, and dispatches queued commands.
-/

/-- `SentGCodeCommandState` (part_001, lines 88-93). -/
inductive SentState
  | sent
  | timedOut
  | receivedResponse
  | printerErrOccurred
deriving DecidableEq, Repr

/-- Observable history of one SentGCodeCommand: its state field plus how
many times its completion callback (promise resolve) and its timeout
rejection have fired. -/
structure CmdObs where
  state : SentState
  completions : Nat
  rejections : Nat
deriving DecidableEq, Repr

/-- A freshly enqueued command (part_001, line 99): state starts at SENT. -/
def cmdInit : CmdObs := CmdObs.mk SentState.sent 0 0

/-- The timeout timer callback of `sendGCodeCommand` (part_001, lines
214-219): only a command still in the SENT state is marked TIMED_OUT and
rejected. -/
def timeoutFires (c : CmdObs) : CmdObs :=
  if c.state = SentState.sent then
    CmdObs.mk SentState.timedOut c.completions (c.rejections + 1)
  else c

/-- The previous-command acknowledgement step of the communication loop
(part_001, lines 352-357): unless the command has TIMED_OUT, it is marked
RECEIVED_RESPONSE and its completion callback is invoked. -/
def ackProcesses (c : CmdObs) : CmdObs :=
  if c.state ≠ SentState.timedOut then
    CmdObs.mk SentState.receivedResponse (c.completions + 1) c.rejections
  else c

inductive CmdEvent
  | ack
  | timerFire
deriving DecidableEq, Repr

def cmdStep (c : CmdObs) : CmdEvent → CmdObs
  | CmdEvent.ack => ackProcesses c
  | CmdEvent.timerFire => timeoutFires c

/-- An arbitrary interleaving of acknowledgement processings and timer
firings applied to one command. -/
def cmdRun (c : CmdObs) (evs : List CmdEvent) : CmdObs := evs.foldl cmdStep c

/-- Reachability invariant of a single command lifecycle. -/
def CmdInv (c : CmdObs) : Prop :=
  (c.state = SentState.sent ∧ c.completions = 0 ∧ c.rejections = 0) ∨
  (c.state = SentState.receivedResponse ∧ c.rejections = 0) ∨
  (c.state = SentState.timedOut ∧ c.completions = 0 ∧ c.rejections = 1)

theorem cmdStep_inv {c : CmdObs} (h : CmdInv c) (e : CmdEvent) :
    CmdInv (cmdStep c e) := by
  cases e with
  | ack =>
    show CmdInv (ackProcesses c)
    unfold ackProcesses
    rcases h with ⟨h1, h2, h3⟩ | ⟨h1, h2⟩ | ⟨h1, h2, h3⟩
    · rw [h1]; simp [CmdInv, h2, h3]
    · rw [h1]; simp [CmdInv, h2]
    · rw [h1]; simp [CmdInv, h1, h2, h3]
  | timerFire =>
    show CmdInv (timeoutFires c)
    unfold timeoutFires
    rcases h with ⟨h1, h2, h3⟩ | ⟨h1, h2⟩ | ⟨h1, h2, h3⟩
    · rw [h1]; simp [CmdInv, h2, h3]
    · rw [h1]; simp [CmdInv, h1, h2]
    · rw [h1]; simp [CmdInv, h1, h2, h3]

theorem cmdRun_inv : ∀ (evs : List CmdEvent) (c : CmdObs), CmdInv c →
    CmdInv (cmdRun c evs) := by
  intro evs
  induction evs with
  | nil => intro c h; exact h
  | cons e rest ih =>
    intro c h
    exact ih (cmdStep c e) (cmdStep_inv h e)

/-- Claim C2: after any interleaving of acknowledgement arrivals and timer
firings, a command that ended TIMED_OUT was rejected exactly once and its
completion callback never fired (a late acknowledgement is a no-op, as both
further events are no-ops on a TIMED_OUT command); a command that ended
RECEIVED_RESPONSE was never rejected, and a later timer firing on it is a
no-op. -/
theorem command_exactly_once (evs : List CmdEvent) :
    ((cmdRun cmdInit evs).state = SentState.timedOut →
      (cmdRun cmdInit evs).rejections = 1 ∧ (cmdRun cmdInit evs).completions = 0) ∧
    ((cmdRun cmdInit evs).state = SentState.receivedResponse →
      (cmdRun cmdInit evs).rejections = 0) ∧
    ((cmdRun cmdInit evs).state = SentState.timedOut →
      ∀ e, cmdStep (cmdRun cmdInit evs) e = cmdRun cmdInit evs) ∧
    ((cmdRun cmdInit evs).state = SentState.receivedResponse →
      timeoutFires (cmdRun cmdInit evs) = cmdRun cmdInit evs) := by
  have hinv := cmdRun_inv evs cmdInit (Or.inl ⟨rfl, rfl, rfl⟩)
  refine ⟨?_, ?_, ?_, ?_⟩
  · intro hst
    rcases hinv with ⟨h1, _, _⟩ | ⟨h1, _⟩ | ⟨_, h2, h3⟩
    · rw [hst] at h1; cases h1
    · rw [hst] at h1; cases h1
    · exact ⟨h3, h2⟩
  · intro hst
    rcases hinv with ⟨h1, _, _⟩ | ⟨_, h2⟩ | ⟨h1, _, _⟩
    · rw [hst] at h1; cases h1
    · exact h2
    · rw [hst] at h1; cases h1
  · intro hst e
    cases e with
    | ack =>
      show ackProcesses _ = _
      unfold ackProcesses
      rw [hst]
      simp
    | timerFire =>
      show timeoutFires _ = _
      unfold timeoutFires
      rw [hst]
      simp
  · intro hst
    unfold timeoutFires
    rw [hst]
    simp

theorem command_exactly_once_witness :
    (cmdRun cmdInit [CmdEvent.timerFire, CmdEvent.ack]).state = SentState.timedOut ∧
    (cmdRun cmdInit [CmdEvent.timerFire, CmdEvent.ack]).rejections = 1 ∧
    (cmdRun cmdInit [CmdEvent.timerFire, CmdEvent.ack]).completions = 0 := by
  have h := (command_exactly_once [CmdEvent.timerFire, CmdEvent.ack]).1 (by decide)
  exact ⟨by decide, h.1, h.2⟩

/-- `ExtractorState` (part_001, lines 66-71). -/
inductive ExtractorState1
  | timedOut
  | pending
  | foundMatch
  | printerErrOccurred
deriving DecidableEq, Repr

/-- An Extractor object (part_001, lines 73-86): regex source text, the
`execRegexOnOk` policy flag, and the state field.  The class declares the
fields `regex`, `onMatchCallback`, `onPrinterErrorCallback`,
`execRegexOnOk` and `state` and no method named `exec`. -/
structure Extractor1 where
  regexSource : String
  execRegexOnOk : Bool
  state : ExtractorState1
deriving DecidableEq, Repr

/-- JavaScript runtime errors raised inside the communication loop. -/
inductive JsErr
  | typeError
deriving DecidableEq, Repr

/-- The match attempt of the extractor loop (part_001, lines 335 and 337):
the code invokes `extractor.exec(outputBuffer)`, but an Extractor object
has no `exec` member (the regular expression lives in `extractor.regex`),
so the property is `undefined` and calling it raises a TypeError --
every attempted match throws instead of testing the pattern. -/
def extractorAttemptMatch (_e : Extractor1) (_buf : JStr) : Except JsErr Bool :=
  Except.error JsErr.typeError

/-- The `while (extractors.length > 0)` loop of the communication loop
(part_001, lines 321-348), acting on the popped-off elements in order: a
TIMED_OUT extractor is dropped; one whose policy defers to the completed
response is retained when no completed response was seen; otherwise a match
is attempted — on a match the extractor resolves and is dropped, on no
match it is retained; a thrown TypeError aborts the whole pass. -/
def extractorLoop (rc : Bool) (buf : JStr) (incomplete : List Extractor1) :
    List Extractor1 → Except JsErr (List Extractor1)
  | [] => Except.ok incomplete
  | e :: stack =>
    if e.state = ExtractorState1.timedOut then extractorLoop rc buf incomplete stack
    else if e.execRegexOnOk then
      if rc then
        match extractorAttemptMatch e buf with
        | Except.error err => Except.error err
        | Except.ok true =>
          extractorLoop rc buf incomplete stack
        | Except.ok false => extractorLoop rc buf (incomplete ++ [e]) stack
      else extractorLoop rc buf (incomplete ++ [e]) stack
    else
      match extractorAttemptMatch e buf with
      | Except.error err => Except.error err
      | Except.ok true => extractorLoop rc buf incomplete stack
      | Except.ok false => extractorLoop rc buf (incomplete ++ [e]) stack

/-- The extractor pass over `printer.extractorStack`: elements are popped
from the end of the array, so the stack is processed in reverse. -/
def extractorPhase (rc : Bool) (buf : JStr) (stack : List Extractor1) :
    Except JsErr (List Extractor1) :=
  extractorLoop rc buf [] stack.reverse

/-- Claim C6 exercised on the code: the moment any Pending extractor
qualifies for a match test (its policy flag is false, or a completed
response was seen), the pass raises a TypeError instead of testing the
pattern; only passes that never attempt a match succeed, e.g. a TIMED_OUT
extractor is silently dropped and a deferred-policy extractor is retained
when no completed response was seen. -/
theorem extractor_evaluation_raises :
    extractorPhase false ['b', 'u', 's', 'y']
        [Extractor1.mk "busy" false ExtractorState1.pending] =
      Except.error JsErr.typeError ∧
    extractorPhase true ['o', 'k']
        [Extractor1.mk "FIRMWARE_NAME" true ExtractorState1.pending] =
      Except.error JsErr.typeError ∧
    extractorPhase true ['o', 'k']
        [Extractor1.mk "FIRMWARE_NAME" true ExtractorState1.timedOut] =
      Except.ok [] ∧
    extractorPhase false []
        [Extractor1.mk "FIRMWARE_NAME" true ExtractorState1.pending] =
      Except.ok [Extractor1.mk "FIRMWARE_NAME" true ExtractorState1.pending] := by
  refine ⟨rfl, rfl, rfl, rfl⟩

/-- A SentGCodeCommand as it sits in `printer.sendQueue`: its command text
and its state field (part_001, lines 95-106). -/
structure SentCmd where
  command : JStr
  state : SentState
deriving DecidableEq, Repr

/-- Completed-response detection of the communication loop (part_001, lines
316-319): `outputBuffer.split('\n').includes(RESPONSE_COMPLETED)` — true
whenever any newline-separated segment of the accumulated buffer, the final
unterminated fragment included, equals the token. -/
def responseCompleted (outputBuffer : JStr) : Bool :=
  decide (okLine ∈ splitNl outputBuffer)

/-- The dispatch loop `while (sendQueue.length > 0)` (part_001, lines
362-375): commands are shifted off the head; one that already TIMED_OUT is
skipped; every other command is written to the serial port and becomes
`previousCommand`.  The loop body has no break, so it runs until the queue
is empty.  Returns the writes in order and the final `previousCommand`. -/
def loopSendPhase : Option SentCmd → List SentCmd → List JStr × Option SentCmd
  | prev, [] => ([], prev)
  | prev, c :: rest =>
    if c.state = SentState.timedOut then loopSendPhase prev rest
    else
      let r := loopSendPhase (some c) rest
      (c.command :: r.1, r.2)

/-- The previous-command resolution (part_001, lines 352-358) at the level
of the loop state: the object referenced by `previousCommand` is marked
RECEIVED_RESPONSE unless it already TIMED_OUT. -/
def ackPrevious : Option SentCmd → Option SentCmd
  | none => none
  | some c =>
    if c.state ≠ SentState.timedOut then
      some (SentCmd.mk c.command SentState.receivedResponse)
    else some c

/-- The mutable state of one communication loop iteration. -/
structure LoopState where
  printing : Bool
  outputBuffer : JStr
  previousCommand : Option SentCmd
  sendQueue : List SentCmd
deriving DecidableEq, Repr

/-- One iteration of the `serialPortListener` body in
`createSerialCommunicationLoop` (part_001, lines 307-381) on the data just
read: append to the output buffer; only a PRINTING printer processes
G-code; evaluate extractors (a thrown TypeError is caught by the
surrounding try, freezing the iteration — modelled as the error case);
when the response completed, resolve `previousCommand` and run the
dispatch loop, clearing the output buffer when at least one command was
written. -/
def commLoopStep (st : LoopState) (extractors : List Extractor1)
    (chunk : JStr) : Except JsErr (LoopState × List Extractor1 × List JStr) :=
  let buf := st.outputBuffer ++ chunk
  if st.printing = false then
    Except.ok (LoopState.mk st.printing buf st.previousCommand st.sendQueue,
      extractors, [])
  else
    let rc := responseCompleted buf
    match extractorPhase rc buf extractors with
    | Except.error err => Except.error err
    | Except.ok exs =>
      if rc = false then
        Except.ok (LoopState.mk st.printing buf st.previousCommand st.sendQueue,
          exs, [])
      else
        let r := loopSendPhase (ackPrevious st.previousCommand) st.sendQueue
        Except.ok
          (LoopState.mk st.printing (if r.1 = [] then buf else []) r.2 [],
            exs, r.1)

/-- Claim C1 exercised on the code: a PRINTING printer holding two SENT
commands in its send queue receives the single acknowledgement line; the
dispatch loop writes both queued commands to the wire in this one pass, so
two commands are in flight after a single acknowledgement. -/
theorem single_ack_drains_queue :
    commLoopStep
        (LoopState.mk true [] none
          [SentCmd.mk ['G', '2', '8', '\n'] SentState.sent,
            SentCmd.mk ['G', '1', '\n'] SentState.sent])
        [] ['o', 'k', '\n'] =
      Except.ok
        (LoopState.mk true [] (some (SentCmd.mk ['G', '1', '\n'] SentState.sent)) [],
          [], [['G', '2', '8', '\n'], ['G', '1', '\n']]) ∧
    (2 : Nat) ≤ [['G', '2', '8', '\n'], ['G', '1', '\n']].length := by
  exact ⟨rfl, by decide⟩

/-- Claim C10: a segment equal to the token counts as an acknowledgement
even as the final unterminated fragment — for every previously accumulated
output, appending a newline and the two token characters (with no trailing
newline) already completes the response; concretely, a read ending in the
bare token triggers the dispatch of the next queued command before the
acknowledgement line is complete. -/
theorem ack_counts_unterminated_tail :
    (∀ pre : JStr, responseCompleted (pre ++ ('\n' :: okLine)) = true) ∧
    commLoopStep
        (LoopState.mk true [] none [SentCmd.mk ['G', '1', '\n'] SentState.sent])
        [] ['x', '\n', 'o', 'k'] =
      Except.ok
        (LoopState.mk true [] (some (SentCmd.mk ['G', '1', '\n'] SentState.sent)) [],
          [], [['G', '1', '\n']]) := by
  constructor
  · intro pre
    unfold responseCompleted
    rw [decide_eq_true_eq, splitNl_append]
    refine List.mem_append_right _ ?_
    have h2 : splitNl ('\n' :: okLine) = [[], okLine] := rfl
    rw [h2, mergeHead_cons, List.append_nil]
    exact List.mem_cons_of_mem _ (List.mem_singleton.mpr rfl)
  · rfl

/-- Embedding of `countChar` (src/unnamed/part_004, util, lines 72-82):
the number of occurrences of the character in the string. -/
def countChar : JStr → Char → Nat
  | [], _ => 0
  | x :: rest, c => (if x = c then 1 else 0) + countChar rest c

/-- The newline normalization of `sendGCodeCommand` (part_001, lines
190-192): a command that does not end with a newline gets one appended. -/
def normalizeNl (g : JStr) : JStr :=
  if g.getLast? = some '\n' then g else g ++ ['\n']

/-- Errors thrown by `sendGCodeCommand`: the generic validation Error of
line 196 and the CommError of line 223. -/
inductive SendError
  | validation
  | comm
deriving DecidableEq, Repr

/-- Embedding of `sendGCodeCommand` (part_001, lines 180-225): normalize
the trailing newline; throw a validation error — before any state change or
enqueue — unless exactly one newline remains; a READY printer with
`autoChangeState` becomes PRINTING; a PRINTING printer enqueues the command
(at the head when `sendImmediately`, at the tail otherwise) and hands back
the deferred; any other state throws a CommError.  The companion timeout
timer is the `timeoutFires` step above. -/
def sendGCodeCommand (g : JStr) (state : PrinterState) (queue : List JStr)
    (sendImmediately autoChangeState : Bool) :
    Except SendError (PrinterState × List JStr) :=
  let cmd := normalizeNl g
  if countChar cmd '\n' ≠ 1 then Except.error SendError.validation
  else
    let st1 :=
      if state = PrinterState.ready ∧ autoChangeState = true then
        PrinterState.printing
      else state
    if st1 = PrinterState.printing then
      Except.ok (st1, if sendImmediately then cmd :: queue else queue ++ [cmd])
    else Except.error SendError.comm

/-- Claim C7 as stated is false on the empty command: the empty string does
not end with a newline, so one is appended, the single-newline check
passes, and the bare newline is accepted and enqueued on a PRINTING
printer instead of being rejected. -/
theorem empty_command_accepted :
    sendGCodeCommand [] PrinterState.printing [] false true =
      Except.ok (PrinterState.printing, [['\n']]) := by
  rfl

/-- Claim C7, amended: after appending a missing trailing newline, a
command is rejected synchronously with a validation error — before any
state change or enqueue — exactly when the normalized text does not contain
exactly one newline (so a multi-newline command throws, but the empty
command is normalized to a bare newline and accepted); a valid command on a
READY printer with `autoChangeState`, or on a PRINTING printer, is enqueued
at the head when `sendImmediately` and at the tail otherwise with the state
ending PRINTING; in every other state the call fails with a communication
error. -/
theorem send_command_validation (g : JStr) (state : PrinterState)
    (queue : List JStr) (si acs : Bool) :
    (countChar (normalizeNl g) '\n' ≠ 1 →
      sendGCodeCommand g state queue si acs = Except.error SendError.validation) ∧
    (countChar (normalizeNl g) '\n' = 1 →
      ((state = PrinterState.printing ∨ (state = PrinterState.ready ∧ acs = true)) →
        sendGCodeCommand g state queue si acs =
          Except.ok (PrinterState.printing,
            if si then normalizeNl g :: queue else queue ++ [normalizeNl g])) ∧
      (state ≠ PrinterState.printing → ¬(state = PrinterState.ready ∧ acs = true) →
        sendGCodeCommand g state queue si acs = Except.error SendError.comm)) := by
  refine ⟨?_, ?_⟩
  · intro hc
    unfold sendGCodeCommand
    simp [hc]
  · intro hc
    refine ⟨?_, ?_⟩
    · intro hst
      unfold sendGCodeCommand
      rcases hst with h | ⟨h1, h2⟩
      · by_cases hr : state = PrinterState.ready ∧ acs = true
        · rcases hr with ⟨hr1, _⟩; rw [h] at hr1; cases hr1
        · simp [hc, hr, h]
      · simp [hc, h1, h2]
    · intro h1 h2
      unfold sendGCodeCommand
      simp [hc, h2, h1]

theorem send_command_validation_witness :
    countChar (normalizeNl ['G', '2', '8', '\n', 'G', '1']) '\n' ≠ 1 ∧
    sendGCodeCommand ['G', '2', '8', '\n', 'G', '1'] PrinterState.printing []
        false true = Except.error SendError.validation ∧
    sendGCodeCommand ['G', '2', '8'] PrinterState.paused [] false true =
      Except.error SendError.comm := by
  refine ⟨by decide, ?_, ?_⟩
  · exact (send_command_validation ['G', '2', '8', '\n', 'G', '1']
      PrinterState.printing [] false true).1 (by decide)
  · exact ((send_command_validation ['G', '2', '8'] PrinterState.paused []
      false true).2 (by decide)).2 (by decide) (by decide)

/-- Claim C5: feeding a stream to the line-framing path chunk by chunk
produces exactly the complete lines — in the same order — and the same
retained unterminated tail as feeding the entire stream in one call. -/
theorem framing_chunking_invariance (chunks : List JStr) :
    feedChunks [] chunks = lineFramerFeed [] chunks.flatten :=
  feedChunks_eq_feed_flatten chunks [] (List.not_mem_nil '\n')

/-!
### getKnownPrinters (claim C9)

`getKnownPrinters` in `src/unnamed/part_001` (lines 438-466) reads and
mutates a module-level array `knownPrinters` — which is never declared
anywhere in the module, so at runtime every call raises a ReferenceError.
The intended array is modelled here as the explicit `known` argument; the
freshly probed device list (`getConnectedSerialPorts`) is the `probed`
argument.
-/

/-- A PortInfo object: only the `path` property is relied on. -/
structure PortInfo where
  path : String
deriving DecidableEq, Repr

/-- The merge loop of `getKnownPrinters` (part_001, lines 448-462): each
probed port is appended to the known list unless some known entry already
has its path. -/
def mergeKnown (known : List PortInfo) : List PortInfo → List PortInfo
  | [] => known
  | p :: rest =>
    if known.any (fun k => k.path == p.path) then mergeKnown known rest
    else mergeKnown (known ++ [p]) rest

/-- Embedding of `getKnownPrinters` (part_001, lines 438-466): with
`refresh` the probed ports are merged into the known list; without it the
cached list is returned unchanged. -/
def getKnownPrinters (refresh : Bool) (known probed : List PortInfo) :
    List PortInfo :=
  if refresh then mergeKnown known probed else known

theorem any_path_eq_mem (known : List PortInfo) (s : String) :
    known.any (fun k => k.path == s) = true ↔ s ∈ known.map PortInfo.path := by
  rw [List.any_eq_true, List.mem_map]
  constructor
  · rintro ⟨k, hk, he⟩
    exact ⟨k, hk, beq_iff_eq.mp he⟩
  · rintro ⟨k, hk, he⟩
    exact ⟨k, hk, beq_iff_eq.mpr he⟩

theorem mergeKnown_nodup :
    ∀ (probed known : List PortInfo),
      (known.map PortInfo.path).Nodup →
      ((mergeKnown known probed).map PortInfo.path).Nodup := by
  intro probed
  induction probed with
  | nil => intro known h; exact h
  | cons p rest ih =>
    intro known h
    show ((if known.any (fun k => k.path == p.path) then mergeKnown known rest
      else mergeKnown (known ++ [p]) rest).map PortInfo.path).Nodup
    by_cases ha : known.any (fun k => k.path == p.path) = true
    · rw [if_pos ha]; exact ih known h
    · rw [if_neg ha]
      refine ih (known ++ [p]) ?_
      rw [List.map_append, List.map_singleton]
      have hnm : p.path ∉ known.map PortInfo.path := by
        intro hm
        exact ha ((any_path_eq_mem known p.path).mpr hm)
      simp [List.nodup_append, h, hnm]

theorem mergeKnown_keeps_paths :
    ∀ (probed known : List PortInfo) (s : String),
      s ∈ known.map PortInfo.path →
      s ∈ (mergeKnown known probed).map PortInfo.path := by
  intro probed
  induction probed with
  | nil => intro known s h; exact h
  | cons p rest ih =>
    intro known s h
    show s ∈ ((if known.any (fun k => k.path == p.path) then mergeKnown known rest
      else mergeKnown (known ++ [p]) rest).map PortInfo.path)
    by_cases ha : known.any (fun k => k.path == p.path) = true
    · rw [if_pos ha]; exact ih known s h
    · rw [if_neg ha]
      refine ih (known ++ [p]) s ?_
      rw [List.map_append]
      exact List.mem_append_left _ h

theorem mergeKnown_adds_paths :
    ∀ (probed known : List PortInfo) (p : PortInfo), p ∈ probed →
      p.path ∈ (mergeKnown known probed).map PortInfo.path := by
  intro probed
  induction probed with
  | nil => intro known p h; exact absurd h (List.not_mem_nil p)
  | cons q rest ih =>
    intro known p h
    show p.path ∈ ((if known.any (fun k => k.path == q.path) then mergeKnown known rest
      else mergeKnown (known ++ [q]) rest).map PortInfo.path)
    rcases List.mem_cons.mp h with h1 | h1
    · subst h1
      by_cases ha : known.any (fun k => k.path == p.path) = true
      · rw [if_pos ha]
        exact mergeKnown_keeps_paths rest known p.path
          ((any_path_eq_mem known p.path).mp ha)
      · rw [if_neg ha]
        refine mergeKnown_keeps_paths rest (known ++ [p]) p.path ?_
        rw [List.map_append, List.map_singleton]
        exact List.mem_append_right _ (List.mem_singleton.mpr rfl)
    · by_cases ha : known.any (fun k => k.path == q.path) = true
      · rw [if_pos ha]; exact ih known p h1
      · rw [if_neg ha]; exact ih (known ++ [q]) p h1

theorem mergeKnown_no_new :
    ∀ (probed known : List PortInfo),
      (∀ p ∈ probed, p.path ∈ known.map PortInfo.path) →
      mergeKnown known probed = known := by
  intro probed
  induction probed with
  | nil => intro known _; rfl
  | cons p rest ih =>
    intro known h
    have ha : known.any (fun k => k.path == p.path) = true :=
      (any_path_eq_mem known p.path).mpr (h p (List.mem_cons_self p rest))
    show (if known.any (fun k => k.path == p.path) then mergeKnown known rest
      else mergeKnown (known ++ [p]) rest) = known
    rw [if_pos ha]
    exact ih known (fun q hq => h q (List.mem_cons_of_mem p hq))

/-- Claim C9 on the intended semantics of `getKnownPrinters`: a refreshing
call never introduces duplicate paths (a duplicate-free known list stays
duplicate-free after the merge), a second refreshing call with an unchanged
probed device list returns the very same list, and a non-refreshing call
returns the cached list unchanged. -/
theorem known_printers_no_duplicates (known probed : List PortInfo)
    (h : (known.map PortInfo.path).Nodup) :
    ((getKnownPrinters true known probed).map PortInfo.path).Nodup ∧
    getKnownPrinters true (getKnownPrinters true known probed) probed =
      getKnownPrinters true known probed ∧
    getKnownPrinters false known probed = known := by
  refine ⟨?_, ?_, rfl⟩
  · exact mergeKnown_nodup probed known h
  · show mergeKnown (mergeKnown known probed) probed = mergeKnown known probed
    exact mergeKnown_no_new probed (mergeKnown known probed)
      (fun p hp => mergeKnown_adds_paths probed known p hp)

theorem known_printers_no_duplicates_witness :
    ((getKnownPrinters true [] [PortInfo.mk "/dev/ttyACM0", PortInfo.mk "/dev/ttyACM0"]).map
        PortInfo.path).Nodup ∧
    getKnownPrinters true
        (getKnownPrinters true [] [PortInfo.mk "/dev/ttyACM0", PortInfo.mk "/dev/ttyACM0"])
        [PortInfo.mk "/dev/ttyACM0", PortInfo.mk "/dev/ttyACM0"] =
      getKnownPrinters true [] [PortInfo.mk "/dev/ttyACM0", PortInfo.mk "/dev/ttyACM0"] := by
  have h := known_printers_no_duplicates []
    [PortInfo.mk "/dev/ttyACM0", PortInfo.mk "/dev/ttyACM0"] (by simp)
  exact ⟨h.1, h.2.1⟩

end QView
